import Mathlib

set_option maxHeartbeats 1000000

namespace SerdePyO3

/-- Model of a Python exception raised by the host runtime (a pyo3 `PyErr`).
The bridge only ever wraps `TypeError`-like failures (downcast errors,
unhashable dict keys, buffer-protocol errors) or generic exceptions, so two
constructors suffice; the message is kept verbatim. -/
inductive PyErrM where
  | exception (msg : String)
  | typeError (msg : String)
deriving DecidableEq

/-- Error taxonomy of `src/error.rs`.  The constructors `message` through
`unsupported` are exactly the variants declared there.  The constructors
`invalidSyntax` (for `Error::Syntax`), `expectedNull`, `expectedArray` and
`expectedMapComma` are referenced by `src/de.rs` although `src/error.rs`
does not declare them (the snapshot's two files disagree); they are included
so the deserializer can be modelled exactly as written.  `unimplemented`
models the `unimplemented!()` panic in `VariantAccess::unit_variant` of
`src/de.rs` as an observable terminal outcome. -/
inductive Error where
  | message (msg : String)
  | pyErr (e : PyErrM)
  | expectedBoolean
  | expectedBytes
  | expectedChar
  | expectedDict
  | expectedDictValue
  | expectedEnumKey
  | expectedEnumValue
  | expectedFloat
  | expectedInteger
  | expectedList
  | expectedListElement
  | expectedNone
  | expectedString
  | unsupported
  | invalidSyntax
  | expectedNull
  | expectedArray
  | expectedMapComma
  | unimplemented
deriving DecidableEq

/-- Display strings from the `impl Display for Error` in `src/error.rs`.
The `pyErr` arm in the source formats the wrapped error with `{:?}`; the
model returns its stored message.  The final four constructors have no
`Display` arm in `src/error.rs` (they are not declared there), so the model
gives them placeholder texts that never arise in any claim. -/
def Error.display : Error → String
  | .message msg => msg
  | .pyErr (.exception msg) => msg
  | .pyErr (.typeError msg) => msg
  | .expectedBoolean => "expected: boolean"
  | .expectedBytes => "expected: bytes"
  | .expectedChar => "expected: single character"
  | .expectedDict => "expected: dict"
  | .expectedDictValue => "expected: dict value"
  | .expectedEnumKey => "expected: non-empty dict"
  | .expectedEnumValue => "expected: non-empty dict value"
  | .expectedFloat => "expected: float"
  | .expectedInteger => "expected: integer"
  | .expectedList => "expected: list"
  | .expectedListElement => "expected: list element"
  | .expectedNone => "expected: none"
  | .expectedString => "expected: string"
  | .unsupported => "unsupported input value"
  | .invalidSyntax => "undeclared: syntax"
  | .expectedNull => "undeclared: null"
  | .expectedArray => "undeclared: array"
  | .expectedMapComma => "undeclared: map comma"
  | .unimplemented => "not implemented"

/-- Boundary conversion `impl Into<PyErr> for Error` of `src/error.rs`:
a wrapped host error is re-raised as is, a free-form `Message` becomes a
generic `Exception`, and every other variant becomes a `TypeError` carrying
its `Display` text. -/
def intoPyErr : Error → PyErrM
  | .pyErr err => err
  | .message msg => .exception msg
  | err => .typeError err.display

/-- The host runtime's dynamic value graph: Python objects as consumed and
produced by the bridge.  `float` carries the exact rational value of the
(finite) Python float; no claim involves float rounding.  `dict` is the
insertion-ordered association list of a Python dict (keys unique when built
through `set_item`). -/
inductive Py where
  | none
  | bool (b : Bool)
  | int (n : Int)
  | float (q : Rat)
  | str (s : String)
  | bytes (bs : List Nat)
  | list (xs : List Py)
  | tuple (xs : List Py)
  | dict (kvs : List (Py × Py))

mutual

/-- Structural equality of dynamic values, modelling Python `==` as used for
dict-key lookup.  (Python's cross-type numeric equalities, such as
`True == 1`, never arise in the bridge: keys are only ever compared against
themselves or against keys of the same runtime type.) -/
def Py.beq : Py → Py → Bool
  | .none, .none => true
  | .bool a, .bool b => a == b
  | .int a, .int b => a == b
  | .float a, .float b => a == b
  | .str a, .str b => a == b
  | .bytes a, .bytes b => a == b
  | .list xs, .list ys => Py.beqList xs ys
  | .tuple xs, .tuple ys => Py.beqList xs ys
  | .dict xs, .dict ys => Py.beqKVs xs ys
  | _, _ => false

/-- Elementwise `Py.beq` on lists. -/
def Py.beqList : List Py → List Py → Bool
  | [], [] => true
  | x :: xs, y :: ys => Py.beq x y && Py.beqList xs ys
  | _, _ => false

/-- Pairwise `Py.beq` on dict entries. -/
def Py.beqKVs : List (Py × Py) → List (Py × Py) → Bool
  | [], [] => true
  | (ka, va) :: xs, (kb, vb) :: ys => Py.beq ka kb && Py.beq va vb && Py.beqKVs xs ys
  | _, _ => false

end

mutual

/-- Python hashability: lists and dicts are unhashable, tuples are hashable
when all their members are.  Used by the model of `PyDict::set_item`. -/
def Py.hashable : Py → Bool
  | .none => true
  | .bool _ => true
  | .int _ => true
  | .float _ => true
  | .str _ => true
  | .bytes _ => true
  | .list _ => false
  | .dict _ => false
  | .tuple xs => Py.hashableList xs

/-- Hashability of every member of a tuple. -/
def Py.hashableList : List Py → Bool
  | [] => true
  | x :: xs => x.hashable && Py.hashableList xs

end

/-- Insertion-ordered update of a dict: an existing key keeps its position
(and its original key object, as CPython does); a new key is appended. -/
def dictUpsert (kvs : List (Py × Py)) (k v : Py) : List (Py × Py) :=
  match kvs with
  | [] => [(k, v)]
  | (k', v') :: rest =>
    if Py.beq k' k then (k', v) :: rest else (k', v') :: dictUpsert rest k v

/-- Model of `PyDict::set_item`: fails with a host `TypeError` on an
unhashable key, otherwise updates the dict. -/
def setItem (kvs : List (Py × Py)) (k v : Py) : Except Error (List (Py × Py)) :=
  if k.hashable then .ok (dictUpsert kvs k v) else
    .error (.pyErr (.typeError "unhashable type"))

/-- Model of `PyDict::get_item`: the value stored under the first key equal
to `k`, if any. -/
def getItem (kvs : List (Py × Py)) (k : Py) : Option Py :=
  match kvs with
  | [] => Option.none
  | (k', v') :: rest => if Py.beq k' k then some v' else getItem rest k

/-! Scalar entry points of the serializer (`impl ser::Serializer` in
`src/ser.rs`).  Machine integers are modelled as mathematical integers: the
`i64::from` / `u64::from` / `f64::from` widenings performed by the narrow
entry points are value-preserving, so they are the identity on the model's
carriers.  An i8 (say) input is an `Int` in the i8 range. -/

/-- Model of `serialize_bool`: `v.to_object(py)`. -/
def serialize_bool (v : Bool) : Py := .bool v

/-- Model of `serialize_i64`: `v.to_object(py)`, a Python int. -/
def serialize_i64 (v : Int) : Py := .int v

/-- Model of `serialize_i8`: `self.serialize_i64(i64::from(v))`. -/
def serialize_i8 (v : Int) : Py := serialize_i64 v

/-- Model of `serialize_i16`: `self.serialize_i64(i64::from(v))`. -/
def serialize_i16 (v : Int) : Py := serialize_i64 v

/-- Model of `serialize_i32`: `self.serialize_i64(i64::from(v))`. -/
def serialize_i32 (v : Int) : Py := serialize_i64 v

/-- Model of `serialize_u64`: `v.to_object(py)`, a Python int. -/
def serialize_u64 (v : Int) : Py := .int v

/-- Model of `serialize_u8`: `self.serialize_u64(u64::from(v))`. -/
def serialize_u8 (v : Int) : Py := serialize_u64 v

/-- Model of `serialize_u16`: `self.serialize_u64(u64::from(v))`. -/
def serialize_u16 (v : Int) : Py := serialize_u64 v

/-- Model of `serialize_u32`: `self.serialize_u64(u64::from(v))`. -/
def serialize_u32 (v : Int) : Py := serialize_u64 v

/-- Model of `serialize_f64`: `v.to_object(py)`, a Python float; the finite
double is represented by its exact rational value. -/
def serialize_f64 (v : Rat) : Py := .float v

/-- Model of `serialize_f32`: `self.serialize_f64(f64::from(v))`; the
widening of a finite f32 to f64 is exact. -/
def serialize_f32 (v : Rat) : Py := serialize_f64 v

/-- Model of `serialize_char`: `v.to_string().to_object(py)`. -/
def serialize_char (v : Char) : Py := .str v.toString

/-- Model of `serialize_str`: `v.to_object(py)`. -/
def serialize_str (v : String) : Py := .str v

/-- Model of `serialize_bytes`: `v.to_object(py)`, a Python bytes object.
The source notes this entry point is not currently called by serde. -/
def serialize_bytes (v : List Nat) : Py := .bytes v

/-- Model of `serialize_none`: `py.None()`. -/
def serialize_none : Py := Py.none

/-- Model of `serialize_unit`: `py.None()`. -/
def serialize_unit : Py := Py.none

/-- Model of `serialize_unit_struct`: delegates to `serialize_unit`. -/
def serialize_unit_struct : Py := serialize_unit

/-- Model of `serialize_unit_variant`: `self.serialize_str(variant)`. -/
def serialize_unit_variant (variant : String) : Py := serialize_str variant

/-! The serde data model, restricted to the kinds the claims quantify over.
`Shape` is the compile-time schema a `#[derive(Serialize, Deserialize)]`
type presents to the framework; `SValue` is a typed value of such a
schema.  Leaf scalars are bool, i64, u64 and string; the compound kinds
are exactly those named by the claims: option, unit, sequence, tuple, map,
struct, and the four enum-variant shapes. -/

mutual

inductive Shape where
  | bool
  | i64
  | u64
  | str
  | unit
  | option (s : Shape)
  | seq (s : Shape)
  | tuple (ss : List Shape)
  | map (ks vs : Shape)
  | struct (fields : List (String × Shape))
  | enum (variants : List (String × VariantShape))

inductive VariantShape where
  | unit
  | newtype (s : Shape)
  | tuple (ss : List Shape)
  | struct (fields : List (String × Shape))

end

inductive SValue where
  | bool (b : Bool)
  | i64 (n : Int)
  | u64 (n : Int)
  | str (s : String)
  | unit
  | none
  | some (v : SValue)
  | seq (xs : List SValue)
  | tuple (xs : List SValue)
  | map (kvs : List (SValue × SValue))
  | struct (fields : List (String × SValue))
  | unitVariant (name : String)
  | newtypeVariant (name : String) (v : SValue)
  | tupleVariant (name : String) (xs : List SValue)
  | structVariant (name : String) (xs : List (String × SValue))

mutual

/-- Model of `to_py` in `src/ser.rs`: the framework walks the typed value
and calls the serializer's visitor methods; compound builders accumulate
into a Python list/tuple/dict and finalize via `end()`.  Sequences append
into a `PyList`, tuples collect a stack finalized into a `PyTuple`,
maps/structs `set_item` into a `PyDict` in arrival order, and the three
payload-carrying variant shapes wrap their payload in a fresh single-entry
dict keyed by the variant name.  Failure happens only where the host can
fail (`set_item` on an unhashable key). -/
def to_py : SValue → Except Error Py
  | .bool v => .ok (serialize_bool v)
  | .i64 v => .ok (serialize_i64 v)
  | .u64 v => .ok (serialize_u64 v)
  | .str v => .ok (serialize_str v)
  | .unit => .ok serialize_unit
  | .none => .ok serialize_none
  | .some v => to_py v
  | .seq xs => do .ok (.list (← to_pyList xs))
  | .tuple xs => do .ok (.tuple (← to_pyList xs))
  | .map kvs => do .ok (.dict (← to_pyMap kvs []))
  | .struct fields => do .ok (.dict (← to_pyFields fields []))
  | .unitVariant name => .ok (serialize_unit_variant name)
  | .newtypeVariant name v => do
      let value ← to_py v
      let d ← setItem [] (serialize_str name) value
      .ok (.dict d)
  | .tupleVariant name xs => do
      let ps ← to_pyList xs
      let d ← setItem [] (serialize_str name) (.tuple ps)
      .ok (.dict d)
  | .structVariant name fields => do
      let inner ← to_pyFields fields []
      let d ← setItem [] (serialize_str name) (.dict inner)
      .ok (.dict d)

/-- Elements serialized one at a time, in declared order
(`SerializeSeq::serialize_element` / `SerializeTuple::serialize_element`). -/
def to_pyList : List SValue → Except Error (List Py)
  | [] => .ok []
  | x :: xs => do
      let p ← to_py x
      let ps ← to_pyList xs
      .ok (p :: ps)

/-- Map entries written by alternating `serialize_key` / `serialize_value`
calls, each value stored with `set_item` into the accumulating dict. -/
def to_pyMap : List (SValue × SValue) → List (Py × Py) → Except Error (List (Py × Py))
  | [], acc => .ok acc
  | (k, v) :: rest, acc => do
      let pk ← to_py k
      let pv ← to_py v
      let acc' ← setItem acc pk pv
      to_pyMap rest acc'

/-- Struct fields written by `serialize_field(name, value)` in declaration
order, the name serialized as a Python string key. -/
def to_pyFields : List (String × SValue) → List (Py × Py) →
    Except Error (List (Py × Py))
  | [], acc => .ok acc
  | (name, v) :: rest, acc => do
      let pv ← to_py v
      let acc' ← setItem acc (serialize_str name) pv
      to_pyFields rest acc'

end

/-! Extraction helpers modelling pyo3's `FromPyObject` implementations, the
machinery `Deserializer::downcast` delegates to in `src/de.rs`. -/

/-- Model of `bool::extract`: succeeds only on a Python bool. -/
def extractBool : Py → Option Bool
  | .bool b => some b
  | _ => Option.none

/-- Model of `i64::extract` (`PyLong_AsLongLong`): Python ints in the i64
range; a Python bool is an int and converts to 0 or 1. -/
def extractI64 : Py → Option Int
  | .int n => if -(2 ^ 63) ≤ n ∧ n < 2 ^ 63 then some n else Option.none
  | .bool b => some (if b then 1 else 0)
  | _ => Option.none

/-- Model of `u64::extract` (`PyLong_AsUnsignedLongLong`): Python ints in
the u64 range; a Python bool converts to 0 or 1. -/
def extractU64 : Py → Option Int
  | .int n => if 0 ≤ n ∧ n < 2 ^ 64 then some n else Option.none
  | .bool b => some (if b then 1 else 0)
  | _ => Option.none

/-- Model of `String::extract`: succeeds only on a Python str. -/
def extractString : Py → Option String
  | .str s => some s
  | _ => Option.none

/-- Model of `f64::extract` (`PyFloat_AsDouble`): floats, and ints or bools
coerced to float.  The int-to-double conversion is modelled exactly (no
claim involves its rounding). -/
def extractF64 : Py → Option Rat
  | .float q => some q
  | .int n => some (n : Rat)
  | .bool b => some (if b then 1 else 0)
  | _ => Option.none

/-- Model of `u8::extract`: small ints (and bools) in the octet range. -/
def extractU8 : Py → Option Nat
  | .int n => if 0 ≤ n ∧ n < 256 then some n.toNat else Option.none
  | .bool b => some (if b then 1 else 0)
  | _ => Option.none

/-- Each member of a sequence extracted as a u8, for `Vec<u8>::extract`. -/
def extractU8List : List Py → Option (List Nat)
  | [] => some []
  | p :: ps => do
      let b ← extractU8 p
      let bs ← extractU8List ps
      some (b :: bs)

/-- Model of `Vec<u8>::extract`: a bytes object yields its octets, a list or
tuple is iterated extracting each member as a u8; a str's members are
1-character strings, which fail the u8 extraction. -/
def extractVecU8 : Py → Option (List Nat)
  | .bytes bs => some bs
  | .list ps => extractU8List ps
  | .tuple ps => extractU8List ps
  | _ => Option.none

/-- Model of `Deserializer::is_none`: pointer comparison with `Py_None`. -/
def is_none : Py → Bool
  | .none => true
  | _ => false

/-! Scalar entry points of the deserializer (`impl de::Deserializer` in
`src/de.rs`), each fused with the visitor serde derives for the requested
leaf type.  The generic `Deserializer::downcast` helper maps every
extraction failure to `Error::ExpectedInteger`, whatever type was
requested. -/

/-- Model of `deserialize_bool`: `visitor.visit_bool(self.downcast()?)`. -/
def deserialize_bool (p : Py) : Except Error Bool :=
  match extractBool p with
  | some v => .ok v
  | _ => .error .expectedInteger

/-- Model of `deserialize_i64`: `visitor.visit_i64(self.downcast()?)`. -/
def deserialize_i64 (p : Py) : Except Error Int :=
  match extractI64 p with
  | some v => .ok v
  | _ => .error .expectedInteger

/-- Model of `deserialize_u64`: `visitor.visit_u64(self.downcast()?)`. -/
def deserialize_u64 (p : Py) : Except Error Int :=
  match extractU64 p with
  | some v => .ok v
  | _ => .error .expectedInteger

/-- Model of `deserialize_f64`: `visitor.visit_f64(self.downcast()?)`. -/
def deserialize_f64 (p : Py) : Except Error Rat :=
  match extractF64 p with
  | some v => .ok v
  | _ => .error .expectedInteger

/-- Model of `deserialize_string`: `visitor.visit_string(self.downcast::<String>()?)`. -/
def deserialize_string (p : Py) : Except Error String :=
  match extractString p with
  | some v => .ok v
  | _ => .error .expectedInteger

/-- Model of `deserialize_char`: downcast to `String` (failure gives the
`downcast` error `ExpectedInteger`), then require the UTF-8 byte length
(Rust `String::len`) to be exactly 1 and visit the first char; any other
length fails with `ExpectedString`. -/
def deserialize_char (p : Py) : Except Error Char :=
  match extractString p with
  | some s =>
      if s.utf8ByteSize = 1 then .ok s.front else .error .expectedString
  | _ => .error .expectedInteger

/-- Model of `deserialize_str`: `PyString::try_from` (a failed downcast
raises a host `TypeError`) followed by a zero-copy borrowed view. -/
def deserialize_str (p : Py) : Except Error String :=
  match p with
  | .str s => .ok s
  | _ => .error (.pyErr (.typeError "downcast to str failed"))

/-- Model of `deserialize_bytes`: `PyBuffer::get` succeeds only for a
buffer-capable value — in this value model, a bytes object — and the
borrowed slice is visited zero-copy.  Any other value fails with the
wrapped host error from the buffer protocol; there is no fallback.  (The
source's `ExpectedNull` arm, for a buffer that is not a contiguous u8
buffer, is unreachable here because the only buffer-capable dynamic value
is a bytes object.) -/
def deserialize_bytes (p : Py) : Except Error (List Nat) :=
  match p with
  | .bytes bs => .ok bs
  | _ => .error (.pyErr (.typeError "buffer protocol unsupported"))

/-- Model of `deserialize_byte_buf`: `self.downcast::<Vec<u8>>()?`, i.e.
iterate the value as a sequence of small integers, any failure mapped by
`downcast` to `ExpectedInteger`. -/
def deserialize_byte_buf (p : Py) : Except Error (List Nat) :=
  match extractVecU8 p with
  | some bs => .ok bs
  | _ => .error .expectedInteger

/-- Outcome of `deserialize_any`: which visitor method the probe chain
invokes (compound probes are recorded without descending — the claims about
`deserialize_any` concern the dispatch order). -/
inductive AnyVisit where
  | unit
  | string (s : String)
  | boolean (b : Bool)
  | uint (n : Int)
  | float (q : Rat)
  | sequence
  | mapping
deriving DecidableEq

/-- Model of `PyList::is_instance || PyTuple::is_instance`. -/
def isSeqInstance : Py → Bool
  | .list _ => true
  | .tuple _ => true
  | _ => false

/-- Model of `PyDict::is_instance`. -/
def isDictInstance : Py → Bool
  | .dict _ => true
  | _ => false

/-- Model of `deserialize_any` in `src/de.rs`: the literal if-let chain —
none check, then `String`, `bool`, `u64`, `f64` downcasts, then the
list/tuple instance check dispatching to `deserialize_seq`, then the dict
instance check dispatching to `deserialize_map`, else `Error::Syntax`. -/
def deserialize_any (p : Py) : Except Error AnyVisit :=
  if is_none p then .ok .unit
  else match extractString p with
  | some s => .ok (.string s)
  | _ => match extractBool p with
    | some b => .ok (.boolean b)
    | _ => match extractU64 p with
      | some n => .ok (.uint n)
      | _ => match extractF64 p with
        | some q => .ok (.float q)
        | _ =>
          if isSeqInstance p then .ok .sequence
          else if isDictInstance p then .ok .mapping
          else .error .invalidSyntax

/-- The "any" dispatch as the spec describes it: a fixed priority-ordered
list of probes — null, string, boolean, unsigned integer, float,
sequence-like, mapping-like — each returning a definite success or failure. -/
def anyProbes : List (Py → Option AnyVisit) :=
  [fun p => if is_none p then some .unit else Option.none,
   fun p => (extractString p).map .string,
   fun p => (extractBool p).map .boolean,
   fun p => (extractU64 p).map .uint,
   fun p => (extractF64 p).map .float,
   fun p => if isSeqInstance p then some .sequence else Option.none,
   fun p => if isDictInstance p then some .mapping else Option.none]

/-- Spec-side rendering of `deserialize_any`, written from the spec's words:
the first successful probe in the priority order is accepted; if none
succeeds, the call fails with the syntax error. -/
def anySpec (p : Py) : Except Error AnyVisit :=
  match (anyProbes.filterMap (fun probe => probe p)).head? with
  | some r => .ok r
  | _ => .error .invalidSyntax

mutual

/-- Model of `deserialize_ignored_any` (delegating to `deserialize_any`)
driven by serde's `IgnoredAny` visitor: the value is validated by the same
probe chain and discarded, with compound probes recursing into every
member (sequence elements; dict keys and values). -/
def de_ignored : Py → Except Error Unit
  | .none => .ok ()
  | .str _ => .ok ()
  | .bool _ => .ok ()
  | .int _ => .ok ()
  | .float _ => .ok ()
  | .list xs => de_ignoredList xs
  | .tuple xs => de_ignoredList xs
  | .dict kvs => de_ignoredKVs kvs
  | .bytes _ => .error .invalidSyntax

/-- Sequence elements pulled one at a time and ignored. -/
def de_ignoredList : List Py → Except Error Unit
  | [] => .ok ()
  | x :: xs => do
      de_ignored x
      de_ignoredList xs

/-- Dict entries pulled as alternating ignored keys and values. -/
def de_ignoredKVs : List (Py × Py) → Except Error Unit
  | [] => .ok ()
  | (k, v) :: rest => do
      de_ignored k
      de_ignored v
      de_ignoredKVs rest

end

/-- Association lookup among declared struct fields. -/
def lookupShape : List (String × Shape) → String → Option Shape
  | [], _ => Option.none
  | (n, s) :: rest, name => if n = name then some s else lookupShape rest name

/-- Association lookup among declared enum variants. -/
def lookupVariantShape : List (String × VariantShape) → String → Option VariantShape
  | [], _ => Option.none
  | (n, s) :: rest, name =>
      if n = name then some s else lookupVariantShape rest name

/-- Association lookup among field values collected while reading a dict. -/
def lookupField : List (String × SValue) → String → Option SValue
  | [], _ => Option.none
  | (n, w) :: rest, name => if n = name then some w else lookupField rest name

/-- Final step of the derived struct visitor: after the dict is exhausted,
each declared field takes its collected value, in declaration order; a
field never seen fails with serde's free-form missing-field error. -/
def buildStructFields : List (String × Shape) → List (String × SValue) →
    Except Error (List (String × SValue))
  | [], _ => .ok []
  | (name, _) :: rest, acc =>
      match lookupField acc name with
      | some w => (buildStructFields rest acc).map ((name, w) :: ·)
      | _ => .error (.message ("missing field " ++ name))

/-- Enum deserialization when the dynamic value is a string
(`deserialize_enum`'s first branch): serde's string deserializer resolves
the variant name directly; a unit variant succeeds with no payload, a
payload-carrying variant is rejected by the string-based variant access
with an invalid-type error, and an unknown name with an unknown-variant
error (both free-form framework `Message` errors). -/
def deVariantFromStr (variants : List (String × VariantShape)) (s : String) :
    Except Error SValue :=
  match lookupVariantShape variants s with
  | some .unit => .ok (.unitVariant s)
  | some _ => .error (.message ("invalid type: unit variant " ++ s))
  | _ => .error (.message ("unknown variant " ++ s))

/-- Elements yielded by iterating the `PySequence` view taken by
`deserialize_seq`: lists and tuples yield their members, a str yields its
characters as 1-character strings, a bytes object yields its octets as
ints; any other value fails the `PySequence` downcast. -/
def pySeqElems : Py → Option (List Py)
  | .list xs => some xs
  | .tuple xs => some xs
  | .str s => some (s.data.map fun c => .str c.toString)
  | .bytes bs => some (bs.map fun b => .int (b : Int))
  | _ => Option.none

mutual

/-- Model of `from_py` in `src/de.rs`: the framework requests the shape the
schema declares, and each request dispatches to the corresponding
`deserialize_*` method of the `Deserializer`, whose visitor (derived by the
framework for that shape) builds the typed result.  Sequence shapes
iterate a `PySequence` view; map and struct shapes iterate the dict's
entries through `DictIter` (`next_value_seed` looks the snapshotted key up
with `get_item`, which for a genuine dict — keys unique — is the entry's
own value); enum shapes follow `deserialize_enum`: a string resolves as a
unit variant by name, otherwise a dict's first entry provides the variant
name and payload, further entries never being examined. -/
def from_py : Shape → Py → Except Error SValue
  | .bool, p => (deserialize_bool p).map SValue.bool
  | .i64, p => (deserialize_i64 p).map SValue.i64
  | .u64, p => (deserialize_u64 p).map SValue.u64
  | .str, p => (deserialize_string p).map SValue.str
  | .unit, p => if is_none p then .ok .unit else .error .expectedNull
  | .option s, p =>
      if is_none p then .ok SValue.none else (from_py s p).map SValue.some
  | .seq s, p =>
      match pySeqElems p with
      | some es => (deList s es).map SValue.seq
      | _ => .error (.pyErr (.typeError "downcast to sequence failed"))
  | .tuple ss, p =>
      match pySeqElems p with
      | some es => (deTuple ss es).map SValue.tuple
      | _ => .error (.pyErr (.typeError "downcast to sequence failed"))
  | .map ks vs, p =>
      match p with
      | .dict kvs => (deKVs ks vs kvs).map SValue.map
      | _ => .error (.pyErr (.typeError "downcast to dict failed"))
  | .struct decl, p =>
      match p with
      | .dict kvs => do
          let acc ← deStructEntries decl kvs []
          let fields ← buildStructFields decl acc
          .ok (.struct fields)
      | _ => .error (.pyErr (.typeError "downcast to dict failed"))
  | .enum vs, p =>
      match p with
      | .str s => deVariantFromStr vs s
      | .dict [] => .error .expectedMapComma
      | .dict ((k, v) :: _) =>
          match k with
          | .str name => deVariantByName vs name v
          | _ => .error (.pyErr (.typeError "downcast to str failed"))
      | _ => .error (.pyErr (.typeError "downcast to dict failed"))
termination_by s p => (sizeOf s, sizeOf p)

/-- `SeqAccess` (`SeqIter`): elements pulled one at a time, each re-entering
the deserializer scoped to that element. -/
def deList (s : Shape) : List Py → Except Error (List SValue)
  | [] => .ok []
  | p :: ps => do
      let w ← from_py s p
      let ws ← deList s ps
      .ok (w :: ws)
termination_by ps => (sizeOf s, sizeOf ps)

/-- The derived tuple visitor over `SeqAccess`: reads exactly one element
per component (an exhausted iterator fails with the framework's
invalid-length error; elements beyond the arity are not examined). -/
def deTuple : List Shape → List Py → Except Error (List SValue)
  | [], _ => .ok []
  | _ :: _, [] => .error (.message "invalid length")
  | s :: ss, p :: ps => do
      let w ← from_py s p
      let ws ← deTuple ss ps
      .ok (w :: ws)
termination_by ss ps => (sizeOf ss, sizeOf ps)

/-- `MapAccess` (`DictIter`) driven by the derived map visitor: alternating
key/value pulls over the dict's entries in insertion order. -/
def deKVs (ks vs : Shape) : List (Py × Py) → Except Error (List (SValue × SValue))
  | [] => .ok []
  | (k, v) :: rest => do
      let wk ← from_py ks k
      let wv ← from_py vs v
      let ws ← deKVs ks vs rest
      .ok ((wk, wv) :: ws)
termination_by kvs => (1 + sizeOf ks + sizeOf vs, sizeOf kvs)

/-- `MapAccess` driven by the derived struct visitor: each key is read as an
identifier (`deserialize_identifier` → `deserialize_str`, so a non-str key
raises the host downcast error) and matched against the declared field
names; a recognized field checks for a duplicate and then deserializes the
value at the field's shape, an unrecognized field ignores its value through
`IgnoredAny`. -/
def deStructEntries (decl : List (String × Shape)) :
    List (Py × Py) → List (String × SValue) → Except Error (List (String × SValue))
  | [], acc => .ok acc
  | (k, v) :: rest, acc =>
      match k with
      | .str name =>
          if decl.any (fun f => f.1 = name) then
            if acc.any (fun a => a.1 = name) then
              .error (.message ("duplicate field " ++ name))
            else do
              let w ← deNamedField decl name v
              deStructEntries decl rest (acc ++ [(name, w)])
          else do
            de_ignored v
            deStructEntries decl rest acc
      | _ => .error (.pyErr (.typeError "downcast to str failed"))
termination_by entries _ => (sizeOf decl, sizeOf entries)

/-- `next_value_seed` for a recognized struct field: the value deserialized
at the declared shape of the field with this name.  (Callers invoke this
only for recognized names, so the nil arm is unreachable.) -/
def deNamedField : List (String × Shape) → String → Py → Except Error SValue
  | [], name, _ => .error (.message ("missing field " ++ name))
  | (n, s) :: rest, name, v =>
      if n = name then from_py s v else deNamedField rest name v
termination_by decl _ v => (sizeOf decl, sizeOf v)

/-- The `EnumAccess`/`VariantAccess` pair (`Enum` in `src/de.rs`) after the
variant name has been read from the dict's first key: the declared shape of
the named variant dispatches — a unit variant reaches the `unimplemented!()`
body of `unit_variant` (modelled as the distinguished `unimplemented`
outcome), a newtype variant re-enters the deserializer on the payload, a
tuple variant reads the payload through `deserialize_seq`, and a struct
variant through `deserialize_map`; a name matching no variant fails with
the framework's unknown-variant error. -/
def deVariantByName : List (String × VariantShape) → String → Py → Except Error SValue
  | [], name, _ => .error (.message ("unknown variant " ++ name))
  | (n, vsh) :: rest, name, v =>
      if n = name then
        match vsh with
        | .unit => .error .unimplemented
        | .newtype s => (from_py s v).map (.newtypeVariant name)
        | .tuple ss =>
            match pySeqElems v with
            | some es => (deTuple ss es).map (.tupleVariant name)
            | _ => .error (.pyErr (.typeError "downcast to sequence failed"))
        | .struct fs =>
            match v with
            | .dict kvs => do
                let acc ← deStructEntries fs kvs []
                let fields ← buildStructFields fs acc
                .ok (.structVariant name fields)
            | _ => .error (.pyErr (.typeError "downcast to dict failed"))
      else deVariantByName rest name v
termination_by variants _ v => (sizeOf variants, sizeOf v)

end

/-- A typed value whose serialization is the dynamic null: unit, an absent
option, or a present option whose payload itself serializes to null. -/
def serializesToNone : SValue → Bool
  | .unit => true
  | .none => true
  | .some v => serializesToNone v
  | _ => false

mutual

/-- Normalization performed by a serialize/deserialize round trip: a present
option whose payload serializes to the dynamic null comes back as the absent
option (both serialize to null); every other structure is preserved. -/
def strip : SValue → SValue
  | .some v => if serializesToNone v then .none else .some (strip v)
  | .seq xs => .seq (stripList xs)
  | .tuple xs => .tuple (stripList xs)
  | .map kvs => .map (stripPairs kvs)
  | .struct fs => .struct (stripFields fs)
  | .newtypeVariant n v => .newtypeVariant n (strip v)
  | .tupleVariant n xs => .tupleVariant n (stripList xs)
  | .structVariant n fs => .structVariant n (stripFields fs)
  | v => v

/-- `strip` on each element. -/
def stripList : List SValue → List SValue
  | [] => []
  | x :: xs => strip x :: stripList xs

/-- `strip` on each key and value. -/
def stripPairs : List (SValue × SValue) → List (SValue × SValue)
  | [] => []
  | (k, v) :: rest => (strip k, strip v) :: stripPairs rest

/-- `strip` on each field value. -/
def stripFields : List (String × SValue) → List (String × SValue)
  | [] => []
  | (n, v) :: rest => (n, strip v) :: stripFields rest

end

mutual

/-- No present option anywhere in the value carries a payload serializing to
the dynamic null: the fragment on which a round trip is the identity. -/
def noNullSome : SValue → Bool
  | .some v => !serializesToNone v && noNullSome v
  | .seq xs => noNullSomeList xs
  | .tuple xs => noNullSomeList xs
  | .map kvs => noNullSomePairs kvs
  | .struct fs => noNullSomeFields fs
  | .newtypeVariant _ v => noNullSome v
  | .tupleVariant _ xs => noNullSomeList xs
  | .structVariant _ fs => noNullSomeFields fs
  | _ => true

/-- `noNullSome` on each element. -/
def noNullSomeList : List SValue → Bool
  | [] => true
  | x :: xs => noNullSome x && noNullSomeList xs

/-- `noNullSome` on each key and value. -/
def noNullSomePairs : List (SValue × SValue) → Bool
  | [] => true
  | (k, v) :: rest => noNullSome k && noNullSome v && noNullSomePairs rest

/-- `noNullSome` on each field value. -/
def noNullSomeFields : List (String × SValue) → Bool
  | [] => true
  | (_, v) :: rest => noNullSome v && noNullSomeFields rest

end

/-- Pairwise distinctness of a name list (a Rust struct's field names and an
enum's variant names are distinct by construction). -/
def namesNodup : List String → Bool
  | [] => true
  | n :: rest => rest.all (fun m => m != n) && namesNodup rest

/-- Pairwise non-equality (under Python `==`) of a list of dynamic values:
what a `HashMap`'s distinct keys guarantee about their serializations. -/
def pyPairwiseNe : List Py → Bool
  | [] => true
  | p :: ps => ps.all (fun q => !(Py.beq p q)) && pyPairwiseNe ps

/-- The serialized keys of a typed map are hashable and pairwise distinct:
exactly the condition under which the dict mirrors the map's entries. -/
def mapKeysOk (kvs : List (SValue × SValue)) : Bool :=
  match to_pyList (kvs.map (fun kv => kv.1)) with
  | .ok pks => pks.all Py.hashable && pyPairwiseNe pks
  | _ => false

mutual

/-- Well-formedness of a typed value at a schema shape: the value is one the
framework can present for that schema.  Scalars carry their machine range;
an enum value's variant name resolves in the schema to the variant shape
the value actually has; struct fields match the declaration in name and
order (field names being distinct by construction); a map's serialized keys
are hashable and distinct. -/
def wf : Shape → SValue → Bool
  | .bool, .bool _ => true
  | .i64, .i64 n => decide (-(2 ^ 63) ≤ n ∧ n < 2 ^ 63)
  | .u64, .u64 n => decide (0 ≤ n ∧ n < 2 ^ 64)
  | .str, .str _ => true
  | .unit, .unit => true
  | .option _, .none => true
  | .option s, .some v => wf s v
  | .seq s, .seq xs => wfList s xs
  | .tuple ss, .tuple xs => wfTuple ss xs
  | .map ks vs, .map kvs => wfPairs ks vs kvs && mapKeysOk kvs
  | .struct decl, .struct fs =>
      wfFields decl fs && namesNodup (decl.map (fun f => f.1))
  | .enum variants, .unitVariant n =>
      match lookupVariantShape variants n with
      | some .unit => true
      | _ => false
  | .enum variants, .newtypeVariant n v => wfVariantNewtype variants n v
  | .enum variants, .tupleVariant n xs => wfVariantTuple variants n xs
  | .enum variants, .structVariant n fs => wfVariantStruct variants n fs
  | _, _ => false
termination_by s v => (sizeOf v, sizeOf s)

/-- Each element well-formed at the element shape. -/
def wfList (s : Shape) : List SValue → Bool
  | [] => true
  | x :: xs => wf s x && wfList s xs
termination_by xs => (sizeOf xs, sizeOf s)

/-- Componentwise well-formedness of a tuple (same arity). -/
def wfTuple : List Shape → List SValue → Bool
  | [], [] => true
  | s :: ss, x :: xs => wf s x && wfTuple ss xs
  | _, _ => false
termination_by ss xs => (sizeOf xs, sizeOf ss)

/-- Each entry's key and value well-formed at the key and value shapes. -/
def wfPairs (ks vs : Shape) : List (SValue × SValue) → Bool
  | [] => true
  | (k, v) :: rest => wf ks k && wf vs v && wfPairs ks vs rest
termination_by kvs => (sizeOf kvs, 0)

/-- Fields matching the declaration pointwise in name and order. -/
def wfFields : List (String × Shape) → List (String × SValue) → Bool
  | [], [] => true
  | (n, s) :: decl, (m, v) :: fs => n = m && wf s v && wfFields decl fs
  | _, _ => false
termination_by decl fs => (sizeOf fs, sizeOf decl)

/-- The named variant is declared as a newtype variant and the payload is
well-formed at its shape. -/
def wfVariantNewtype : List (String × VariantShape) → String → SValue → Bool
  | [], _, _ => false
  | (m, vsh) :: rest, n, v =>
      if m = n then
        match vsh with
        | .newtype s => wf s v
        | _ => false
      else wfVariantNewtype rest n v
termination_by variants _ v => (sizeOf v, sizeOf variants)

/-- The named variant is declared as a tuple variant and the payload fields
are well-formed at its component shapes. -/
def wfVariantTuple : List (String × VariantShape) → String → List SValue → Bool
  | [], _, _ => false
  | (m, vsh) :: rest, n, xs =>
      if m = n then
        match vsh with
        | .tuple ss => wfTuple ss xs
        | _ => false
      else wfVariantTuple rest n xs
termination_by variants _ xs => (sizeOf xs, sizeOf variants)

/-- The named variant is declared as a struct variant and the payload fields
match its declaration. -/
def wfVariantStruct : List (String × VariantShape) → String → List (String × SValue) → Bool
  | [], _, _ => false
  | (m, vsh) :: rest, n, fs =>
      if m = n then
        match vsh with
        | .struct decl => wfFields decl fs && namesNodup (decl.map (fun f => f.1))
        | _ => false
      else wfVariantStruct rest n fs
termination_by variants _ fs => (sizeOf fs, sizeOf variants)

end

/-- Round-trip property of a typed value: at every shape at which the value
is well-formed, serialization succeeds and deserializing the produced
dynamic value yields the value up to `strip` normalization. -/
def RT (v : SValue) : Prop :=
  ∀ s : Shape, wf s v = true →
    ∃ p : Py, to_py v = .ok p ∧ from_py s p = .ok (strip v)

/-! Helper lemmas. -/

@[simp] theorem exceptMap_ok {e a b : Type} (f : a → b) (x : a) :
    (Except.ok x : Except e a).map f = .ok (f x) := rfl

@[simp] theorem exceptMap_error {e a b : Type} (f : a → b) (err : e) :
    (Except.error err : Except e a).map f = .error err := rfl

@[simp] theorem exceptBind_ok {e a b : Type} (x : a) (f : a → Except e b) :
    (Except.ok x : Except e a) >>= f = f x := rfl

@[simp] theorem exceptBind_error {e a b : Type} (err : e) (f : a → Except e b) :
    (Except.error err : Except e a) >>= f = .error err := rfl

mutual

theorem Py.beq_refl : ∀ p : Py, Py.beq p p = true
  | .none => rfl
  | .bool b => by simp [Py.beq]
  | .int n => by simp [Py.beq]
  | .float q => by simp [Py.beq]
  | .str s => by simp [Py.beq]
  | .bytes bs => by simp [Py.beq]
  | .list xs => by simpa [Py.beq] using Py.beqList_refl xs
  | .tuple xs => by simpa [Py.beq] using Py.beqList_refl xs
  | .dict kvs => by simpa [Py.beq] using Py.beqKVs_refl kvs

theorem Py.beqList_refl : ∀ xs : List Py, Py.beqList xs xs = true
  | [] => rfl
  | x :: xs => by
      simp [Py.beqList]
      exact ⟨Py.beq_refl x, Py.beqList_refl xs⟩

theorem Py.beqKVs_refl : ∀ kvs : List (Py × Py), Py.beqKVs kvs kvs = true
  | [] => rfl
  | (k, v) :: rest => by
      simp [Py.beqKVs]
      exact ⟨⟨Py.beq_refl k, Py.beq_refl v⟩, Py.beqKVs_refl rest⟩

end

theorem dictUpsert_append {kvs : List (Py × Py)} {k : Py} (v : Py)
    (h : ∀ e ∈ kvs, Py.beq e.1 k = false) :
    dictUpsert kvs k v = kvs ++ [(k, v)] := by
  induction kvs with
  | nil => rfl
  | cons e rest ih =>
      obtain ⟨k', v'⟩ := e
      have hk : Py.beq k' k = false := h (k', v') (by simp)
      simp [dictUpsert, hk]
      exact ih fun e he => h e (by simp [he])

theorem is_none_iff {p : Py} : is_none p = true ↔ p = Py.none := by
  cases p <;> simp [is_none]

theorem deNamedField_eq {decl : List (String × Shape)} {n : String} {s : Shape}
    (p : Py) (h : lookupShape decl n = some s) :
    deNamedField decl n p = from_py s p := by
  induction decl with
  | nil => simp [lookupShape] at h
  | cons f rest ih =>
      obtain ⟨m, s'⟩ := f
      by_cases hm : m = n
      · subst hm
        simp [lookupShape] at h
        subst h
        simp [deNamedField]
      · simp [lookupShape, hm] at h
        simpa [deNamedField, hm] using ih h

theorem lookupShape_any {decl : List (String × Shape)} {n : String} {s : Shape}
    (h : lookupShape decl n = some s) :
    decl.any (fun f => f.1 = n) = true := by
  induction decl with
  | nil => simp [lookupShape] at h
  | cons f rest ih =>
      obtain ⟨m, s'⟩ := f
      by_cases hm : m = n
      · simp [hm]
      · simp [lookupShape, hm] at h
        simp [hm, ih h]

theorem deVariantByName_newtype {variants : List (String × VariantShape)}
    {n : String} {s : Shape} (p : Py)
    (h : lookupVariantShape variants n = some (.newtype s)) :
    deVariantByName variants n p = (from_py s p).map (.newtypeVariant n) := by
  induction variants with
  | nil => simp [lookupVariantShape] at h
  | cons f rest ih =>
      obtain ⟨m, vsh⟩ := f
      by_cases hm : m = n
      · subst hm
        simp [lookupVariantShape] at h
        subst h
        simp [deVariantByName]
      · simp [lookupVariantShape, hm] at h
        rw [deVariantByName.eq_def]
        simp [hm]
        exact ih h

theorem deVariantByName_tuple {variants : List (String × VariantShape)}
    {n : String} {ss : List Shape} (ps : List Py)
    (h : lookupVariantShape variants n = some (.tuple ss)) :
    deVariantByName variants n (.tuple ps) = (deTuple ss ps).map (.tupleVariant n) := by
  induction variants with
  | nil => simp [lookupVariantShape] at h
  | cons f rest ih =>
      obtain ⟨m, vsh⟩ := f
      by_cases hm : m = n
      · subst hm
        simp [lookupVariantShape] at h
        subst h
        simp [deVariantByName, pySeqElems]
      · simp [lookupVariantShape, hm] at h
        rw [deVariantByName.eq_def]
        simp [hm]
        exact ih h

theorem deVariantByName_struct {variants : List (String × VariantShape)}
    {n : String} {decl : List (String × Shape)} (entries : List (Py × Py))
    (h : lookupVariantShape variants n = some (.struct decl)) :
    deVariantByName variants n (.dict entries) =
      (deStructEntries decl entries [] >>= fun acc =>
        buildStructFields decl acc >>= fun fields =>
        Except.ok (.structVariant n fields)) := by
  induction variants with
  | nil => simp [lookupVariantShape] at h
  | cons f rest ih =>
      obtain ⟨m, vsh⟩ := f
      by_cases hm : m = n
      · subst hm
        simp [lookupVariantShape] at h
        subst h
        simp [deVariantByName]
      · simp [lookupVariantShape, hm] at h
        rw [deVariantByName.eq_def]
        simp [hm]
        exact ih h

theorem ser_none_of : ∀ v : SValue, serializesToNone v = true → to_py v = .ok Py.none
  | .unit, _ => rfl
  | .none, _ => rfl
  | .some v, h => by
      have hv : serializesToNone v = true := by simpa [serializesToNone] using h
      simpa [to_py] using ser_none_of v hv
  | .bool _, h => by simp [serializesToNone] at h
  | .i64 _, h => by simp [serializesToNone] at h
  | .u64 _, h => by simp [serializesToNone] at h
  | .str _, h => by simp [serializesToNone] at h
  | .seq _, h => by simp [serializesToNone] at h
  | .tuple _, h => by simp [serializesToNone] at h
  | .map _, h => by simp [serializesToNone] at h
  | .struct _, h => by simp [serializesToNone] at h
  | .unitVariant _, h => by simp [serializesToNone] at h
  | .newtypeVariant _ _, h => by simp [serializesToNone] at h
  | .tupleVariant _ _, h => by simp [serializesToNone] at h
  | .structVariant _ _, h => by simp [serializesToNone] at h

theorem ser_not_none : ∀ v : SValue, to_py v = .ok Py.none → serializesToNone v = true
  | .unit, _ => rfl
  | .none, _ => rfl
  | .some v, h => by
      have hv : to_py v = .ok Py.none := by simpa [to_py] using h
      simpa [serializesToNone] using ser_not_none v hv
  | .bool b, h => by simp [to_py, serialize_bool] at h
  | .i64 n, h => by simp [to_py, serialize_i64] at h
  | .u64 n, h => by simp [to_py, serialize_u64] at h
  | .str s, h => by simp [to_py, serialize_str] at h
  | .unitVariant n, h => by
      simp [to_py, serialize_unit_variant, serialize_str] at h
  | .seq xs, h => by
      cases hx : to_pyList xs <;> simp [to_py, hx] at h
  | .tuple xs, h => by
      cases hx : to_pyList xs <;> simp [to_py, hx] at h
  | .map kvs, h => by
      cases hx : to_pyMap kvs [] <;> simp [to_py, hx] at h
  | .struct fs, h => by
      cases hx : to_pyFields fs [] <;> simp [to_py, hx] at h
  | .newtypeVariant n v, h => by
      cases hx : to_py v <;>
        simp [to_py, hx, setItem, serialize_str, Py.hashable] at h
  | .tupleVariant n xs, h => by
      cases hx : to_pyList xs <;>
        simp [to_py, hx, setItem, serialize_str, Py.hashable] at h
  | .structVariant n fs, h => by
      cases hx : to_pyFields fs [] <;>
        simp [to_py, hx, setItem, serialize_str, Py.hashable] at h

mutual

theorem strip_id : ∀ v : SValue, noNullSome v = true → strip v = v
  | .bool _, _ => rfl
  | .i64 _, _ => rfl
  | .u64 _, _ => rfl
  | .str _, _ => rfl
  | .unit, _ => rfl
  | .none, _ => rfl
  | .unitVariant _, _ => rfl
  | .some v, h => by
      simp [noNullSome] at h
      simp [strip, h.1]
      exact strip_id v h.2
  | .seq xs, h => by
      simp [strip]
      exact stripList_id xs (by simpa [noNullSome] using h)
  | .tuple xs, h => by
      simp [strip]
      exact stripList_id xs (by simpa [noNullSome] using h)
  | .map kvs, h => by
      simp [strip]
      exact stripPairs_id kvs (by simpa [noNullSome] using h)
  | .struct fs, h => by
      simp [strip]
      exact stripFields_id fs (by simpa [noNullSome] using h)
  | .newtypeVariant n v, h => by
      simp [strip]
      exact strip_id v (by simpa [noNullSome] using h)
  | .tupleVariant n xs, h => by
      simp [strip]
      exact stripList_id xs (by simpa [noNullSome] using h)
  | .structVariant n fs, h => by
      simp [strip]
      exact stripFields_id fs (by simpa [noNullSome] using h)

theorem stripList_id : ∀ xs : List SValue, noNullSomeList xs = true → stripList xs = xs
  | [], _ => rfl
  | x :: xs, h => by
      simp [noNullSomeList] at h
      simp [stripList]
      exact ⟨strip_id x h.1, stripList_id xs h.2⟩

theorem stripPairs_id : ∀ kvs : List (SValue × SValue),
    noNullSomePairs kvs = true → stripPairs kvs = kvs
  | [], _ => rfl
  | (k, v) :: rest, h => by
      simp [noNullSomePairs] at h
      simp [stripPairs]
      exact ⟨⟨strip_id k h.1.1, strip_id v h.1.2⟩, stripPairs_id rest h.2⟩

theorem stripFields_id : ∀ fs : List (String × SValue),
    noNullSomeFields fs = true → stripFields fs = fs
  | [], _ => rfl
  | (n, v) :: rest, h => by
      simp [noNullSomeFields] at h
      simp [stripFields]
      exact ⟨strip_id v h.1, stripFields_id rest h.2⟩

end

theorem measure_ind {α : Sort _} (f : α → Nat) (P : α → Prop)
    (step : ∀ v, (∀ w, f w < f v → P w) → P v) : ∀ v, P v := by
  have aux : ∀ n v, f v < n → P v := by
    intro n
    induction n with
    | zero => intro v h; omega
    | succ n ih =>
        intro v h
        apply step
        intro w hw
        apply ih
        omega
  intro v
  exact aux (f v + 1) v (by omega)

theorem wfFields_names : ∀ (decl : List (String × Shape)) (fs : List (String × SValue)),
    wfFields decl fs = true → decl.map (fun f => f.1) = fs.map (fun f => f.1)
  | [], [], _ => rfl
  | [], _ :: _, h => by simp [wfFields] at h
  | _ :: _, [], h => by simp [wfFields] at h
  | (n, s) :: decl, (m, v) :: fs, h => by
      simp [wfFields] at h
      simp [h.1.1]
      exact wfFields_names decl fs h.2

theorem stripFields_names : ∀ fs : List (String × SValue),
    (stripFields fs).map (fun f => f.1) = fs.map (fun f => f.1)
  | [] => rfl
  | (n, v) :: fs => by simpa [stripFields] using stripFields_names fs

theorem nodup_lookup_self {decl : List (String × Shape)}
    (hnd : namesNodup (decl.map (fun f => f.1)) = true) :
    ∀ f ∈ decl, lookupShape decl f.1 = some f.2 := by
  induction decl with
  | nil => intro f hf; simp at hf
  | cons g rest ih =>
      obtain ⟨n, s⟩ := g
      simp [namesNodup] at hnd
      intro f hf
      rcases List.mem_cons.mp hf with hf | hf
      · subst hf
        simp [lookupShape]
      · obtain ⟨fn, fs⟩ := f
        have hne : ¬(n = fn) := fun hEq => hnd.1 fn fs hf hEq.symm
        simp only [lookupShape, if_neg hne]
        exact ih hnd.2 (fn, fs) hf

theorem lookupField_append_skip {ws1 : List (String × SValue)} {n : String}
    (h : ws1.any (fun a => a.1 = n) = false) (ws2 : List (String × SValue)) :
    lookupField (ws1 ++ ws2) n = lookupField ws2 n := by
  induction ws1 with
  | nil => rfl
  | cons e rest ih =>
      obtain ⟨m, w⟩ := e
      simp at h
      simp only [List.cons_append, lookupField, if_neg h.1]
      apply ih
      simp
      exact h.2

theorem buildStruct_go : ∀ (decl : List (String × Shape)) (ws1 ws2 : List (String × SValue)),
    decl.map (fun f => f.1) = ws2.map (fun a => a.1) →
    (∀ f ∈ decl, ws1.any (fun a => a.1 = f.1) = false) →
    namesNodup (decl.map (fun f => f.1)) = true →
    buildStructFields decl (ws1 ++ ws2) = .ok ws2
  | [], ws1, ws2, hnames, _, _ => by
      have : ws2 = [] := by
        cases ws2 with
        | nil => rfl
        | cons a l => simp at hnames
      subst this
      simp [buildStructFields]
  | (n, s) :: decl, ws1, ws2, hnames, hfresh, hnd => by
      cases ws2 with
      | nil => simp at hnames
      | cons a ws2' =>
          obtain ⟨m, w⟩ := a
          simp at hnames
          obtain ⟨hnm, hnames'⟩ := hnames
          subst hnm
          simp [namesNodup] at hnd
          have hlk : lookupField (ws1 ++ (n, w) :: ws2') n = some w := by
            rw [lookupField_append_skip (hfresh (n, s) (by simp))]
            simp [lookupField]
          have hrec : buildStructFields decl ((ws1 ++ [(n, w)]) ++ ws2') = .ok ws2' := by
            apply buildStruct_go decl (ws1 ++ [(n, w)]) ws2' hnames' _ hnd.2
            intro f hf
            have h1 : (ws1.any fun a => decide (a.1 = f.1)) = false :=
              hfresh f (by simp [hf])
            have h2 : ¬(n = f.1) := by
              obtain ⟨fn, fs⟩ := f
              intro hEq
              exact hnd.1 fn fs hf hEq.symm
            simp [List.any_append, h1, h2]
          have hsplit : ws1 ++ (n, w) :: ws2' = (ws1 ++ [(n, w)]) ++ ws2' := by simp
          simp only [buildStructFields, hlk]
          rw [hsplit, hrec]
          simp

theorem wfVariantNewtype_ex : ∀ (variants : List (String × VariantShape)) {n : String}
    {v : SValue}, wfVariantNewtype variants n v = true →
    ∃ s, lookupVariantShape variants n = some (.newtype s) ∧ wf s v = true
  | [], _, _, h => by simp [wfVariantNewtype] at h
  | (m, vsh) :: rest, n, v, h => by
      by_cases hm : m = n
      · subst hm
        rw [wfVariantNewtype.eq_def] at h
        simp at h
        cases vsh with
        | newtype s => exact ⟨s, by simp [lookupVariantShape], h⟩
        | unit => simp at h
        | tuple ss => simp at h
        | struct fs => simp at h
      · rw [wfVariantNewtype.eq_def] at h
        simp [hm] at h
        obtain ⟨s, hs, hw⟩ := wfVariantNewtype_ex rest h
        exact ⟨s, by simp [lookupVariantShape, hm, hs], hw⟩

theorem wfVariantTuple_ex : ∀ (variants : List (String × VariantShape)) {n : String}
    {xs : List SValue}, wfVariantTuple variants n xs = true →
    ∃ ss, lookupVariantShape variants n = some (.tuple ss) ∧ wfTuple ss xs = true
  | [], _, _, h => by simp [wfVariantTuple] at h
  | (m, vsh) :: rest, n, xs, h => by
      by_cases hm : m = n
      · subst hm
        rw [wfVariantTuple.eq_def] at h
        simp at h
        cases vsh with
        | tuple ss => exact ⟨ss, by simp [lookupVariantShape], h⟩
        | unit => simp at h
        | newtype s => simp at h
        | struct fs => simp at h
      · rw [wfVariantTuple.eq_def] at h
        simp [hm] at h
        obtain ⟨ss, hs, hw⟩ := wfVariantTuple_ex rest h
        exact ⟨ss, by simp [lookupVariantShape, hm, hs], hw⟩

theorem wfVariantStruct_ex : ∀ (variants : List (String × VariantShape)) {n : String}
    {fs : List (String × SValue)}, wfVariantStruct variants n fs = true →
    ∃ decl, lookupVariantShape variants n = some (.struct decl) ∧
      wfFields decl fs = true ∧ namesNodup (decl.map (fun f => f.1)) = true
  | [], _, _, h => by simp [wfVariantStruct] at h
  | (m, vsh) :: rest, n, fs, h => by
      by_cases hm : m = n
      · subst hm
        rw [wfVariantStruct.eq_def] at h
        simp at h
        cases vsh with
        | struct decl =>
            simp at h
            exact ⟨decl, by simp [lookupVariantShape], h.1, h.2⟩
        | unit => simp at h
        | newtype s => simp at h
        | tuple ss => simp at h
      · rw [wfVariantStruct.eq_def] at h
        simp [hm] at h
        obtain ⟨decl, hs, hw⟩ := wfVariantStruct_ex rest h
        exact ⟨decl, by simp [lookupVariantShape, hm, hs], hw⟩

theorem rt_list (s : Shape) : ∀ xs : List SValue,
    (∀ x ∈ xs, RT x) → wfList s xs = true →
    ∃ ps, to_pyList xs = .ok ps ∧ deList s ps = .ok (stripList xs) := by
  intro xs
  induction xs with
  | nil =>
      intro _ _
      exact ⟨[], rfl, by simp [deList, stripList]⟩
  | cons x xs ih =>
      intro hrt hwf
      simp [wfList] at hwf
      obtain ⟨p, hp, hfp⟩ := hrt x (by simp) s hwf.1
      obtain ⟨ps, hps, hdl⟩ := ih (fun y hy => hrt y (by simp [hy])) hwf.2
      refine ⟨p :: ps, ?_, ?_⟩
      · simp [to_pyList, hp, hps]
      · simp [deList, hfp, hdl, stripList]

theorem rt_tuple : ∀ (ss : List Shape) (xs : List SValue),
    (∀ x ∈ xs, RT x) → wfTuple ss xs = true →
    ∃ ps, to_pyList xs = .ok ps ∧ deTuple ss ps = .ok (stripList xs)
  | [], [], _, _ => ⟨[], rfl, by simp [deTuple, stripList]⟩
  | [], _ :: _, _, hwf => by simp [wfTuple] at hwf
  | _ :: _, [], _, hwf => by simp [wfTuple] at hwf
  | s :: ss, x :: xs, hrt, hwf => by
      simp [wfTuple] at hwf
      obtain ⟨p, hp, hfp⟩ := hrt x (by simp) s hwf.1
      obtain ⟨ps, hps, hdl⟩ := rt_tuple ss xs (fun y hy => hrt y (by simp [hy])) hwf.2
      refine ⟨p :: ps, ?_, ?_⟩
      · simp [to_pyList, hp, hps]
      · simp [deTuple, hfp, hdl, stripList]

theorem rt_fields (declAll : List (String × Shape)) :
    ∀ (decl : List (String × Shape)) (fields : List (String × SValue)),
    (∀ f ∈ fields, RT f.2) →
    wfFields decl fields = true →
    (∀ f ∈ decl, lookupShape declAll f.1 = some f.2) →
    namesNodup (decl.map (fun f => f.1)) = true →
    ∃ entries : List (Py × Py),
      (∀ acc, (∀ f ∈ decl, ∀ e ∈ acc, Py.beq e.1 (.str f.1) = false) →
        to_pyFields fields acc = .ok (acc ++ entries)) ∧
      (∀ accW : List (String × SValue),
        (∀ f ∈ decl, accW.any (fun a => a.1 = f.1) = false) →
        deStructEntries declAll entries accW = .ok (accW ++ stripFields fields))
  | [], fields, _, hwf, _, _ => by
      cases fields with
      | nil =>
          refine ⟨[], ?_, ?_⟩
          · intro acc _
            simp [to_pyFields]
          · intro accW _
            simp [deStructEntries, stripFields]
      | cons f fs => simp [wfFields] at hwf
  | (n, s) :: declRest, fields, hrt, hwf, hlk, hnd => by
      cases fields with
      | nil => simp [wfFields] at hwf
      | cons f fs =>
          obtain ⟨m, v⟩ := f
          simp [wfFields] at hwf
          obtain ⟨⟨hnm, hv⟩, hrest⟩ := hwf
          subst hnm
          obtain ⟨p, hser, hde⟩ := hrt (n, v) (by simp) s hv
          simp [namesNodup] at hnd
          obtain ⟨entries', hS, hD⟩ :=
            rt_fields declAll declRest fs (fun g hg => hrt g (by simp [hg]))
              hrest (fun g hg => hlk g (by simp [hg])) hnd.2
          refine ⟨(.str n, p) :: entries', ?_, ?_⟩
          · intro acc hfresh
            have hups : dictUpsert acc (.str n) p = acc ++ [(.str n, p)] :=
              dictUpsert_append p (fun e he => hfresh (n, s) (by simp) e he)
            have hfresh' : ∀ g ∈ declRest, ∀ e ∈ acc ++ [(Py.str n, p)],
                Py.beq e.1 (.str g.1) = false := by
              intro g hg e he
              rcases List.mem_append.mp he with he | he
              · exact hfresh g (by simp [hg]) e he
              · simp at he
                subst he
                simp [Py.beq]
                intro hEq
                exact hnd.1 g.1 g.2 hg hEq.symm
            have hS' := hS (acc ++ [(.str n, p)]) hfresh'
            simp [to_pyFields, hser, serialize_str, setItem, Py.hashable, hups, hS']
          · intro accW hfreshW
            have hany : declAll.any (fun f => f.1 = n) = true :=
              lookupShape_any (hlk (n, s) (by simp))
            have haccW : accW.any (fun a => a.1 = n) = false := hfreshW (n, s) (by simp)
            have hnf : deNamedField declAll n p = from_py s p :=
              deNamedField_eq p (hlk (n, s) (by simp))
            have hfreshW' : ∀ g ∈ declRest,
                ((accW ++ [(n, strip v)]).any fun a => a.1 = g.1) = false := by
              intro g hg
              have h1 : (accW.any fun a => decide (a.1 = g.1)) = false :=
                hfreshW g (by simp [hg])
              have h2 : ¬(n = g.1) := by
                intro hEq
                exact hnd.1 g.1 g.2 hg hEq.symm
              simp [List.any_append, h1, h2]
            have hD' := hD (accW ++ [(n, strip v)]) hfreshW'
            simp [deStructEntries, hany, haccW, hnf, hde, hD', stripFields]

theorem rt_pairs (ks vs : Shape) : ∀ kvs : List (SValue × SValue),
    (∀ x ∈ kvs, RT x.1 ∧ RT x.2) →
    wfPairs ks vs kvs = true →
    mapKeysOk kvs = true →
    ∃ entries : List (Py × Py),
      to_pyList (kvs.map (fun kv => kv.1)) = .ok (entries.map (fun e => e.1)) ∧
      (∀ acc, (∀ e ∈ acc, ∀ pk ∈ entries.map (fun x => x.1), Py.beq e.1 pk = false) →
        to_pyMap kvs acc = .ok (acc ++ entries)) ∧
      deKVs ks vs entries = .ok (stripPairs kvs)
  | [], _, _, _ => by
      refine ⟨[], rfl, ?_, ?_⟩
      · intro acc _
        simp [to_pyMap]
      · simp [deKVs, stripPairs]
  | (k, v) :: rest, hrt, hwf, hmk => by
      simp [wfPairs] at hwf
      obtain ⟨⟨hk, hv⟩, hrest⟩ := hwf
      obtain ⟨hrtk, hrtv⟩ := hrt (k, v) (by simp)
      obtain ⟨pk, hpk, hfk⟩ := hrtk ks hk
      obtain ⟨pv, hpv, hfv⟩ := hrtv vs hv
      cases hrk : to_pyList (rest.map (fun kv => kv.1)) with
      | error e =>
          simp [mapKeysOk, to_pyList, hpk, hrk] at hmk
      | ok pks =>
          simp [mapKeysOk, to_pyList, hpk, hrk, pyPairwiseNe] at hmk
          obtain ⟨⟨hhash, hhashTail⟩, hpw, hpwTail⟩ := hmk
          have hmkRest : mapKeysOk rest = true := by
            simp [mapKeysOk, hrk, pyPairwiseNe]
            exact ⟨hhashTail, hpwTail⟩
          obtain ⟨entries', hkeys', hS', hD'⟩ :=
            rt_pairs ks vs rest (fun x hx => hrt x (by simp [hx])) hrest hmkRest
          have hpks : pks = entries'.map (fun e => e.1) := by
            rw [hrk] at hkeys'
            simpa using hkeys'
          subst hpks
          refine ⟨(pk, pv) :: entries', ?_, ?_, ?_⟩
          · simp [to_pyList, hpk, hrk]
          · intro acc hfresh
            have hups : dictUpsert acc pk pv = acc ++ [(pk, pv)] :=
              dictUpsert_append pv (fun e he => hfresh e he pk (by simp))
            have hfresh2 : ∀ e ∈ acc ++ [(pk, pv)],
                ∀ q ∈ entries'.map (fun x => x.1), Py.beq e.1 q = false := by
              intro e he q hq
              rcases List.mem_append.mp he with he | he
              · exact hfresh e he q (by simp [hq])
              · simp at he
                subst he
                exact hpw q hq
            have hS2 := hS' (acc ++ [(pk, pv)]) hfresh2
            simp [to_pyMap, hpk, hpv, setItem, hhash, hups, hS2]
          · simp [deKVs, hfk, hfv, hD', stripPairs]

theorem rt_all : ∀ v : SValue, RT v := by
  apply measure_ind (fun v : SValue => sizeOf v) RT
  intro v IH
  cases v with
  | bool b =>
      intro s hwf
      cases s <;> simp [wf] at hwf
      exact ⟨.bool b, rfl, by simp [from_py, deserialize_bool, extractBool, serialize_bool, strip]⟩
  | i64 n =>
      intro s hwf
      cases s <;> simp [wf] at hwf
      refine ⟨.int n, rfl, ?_⟩
      simp [from_py, deserialize_i64, extractI64, hwf.1, hwf.2, strip]
  | u64 n =>
      intro s hwf
      cases s <;> simp [wf] at hwf
      refine ⟨.int n, rfl, ?_⟩
      simp [from_py, deserialize_u64, extractU64, hwf.1, hwf.2, strip]
  | str t =>
      intro s hwf
      cases s <;> simp [wf] at hwf
      exact ⟨.str t, rfl, by simp [from_py, deserialize_string, extractString, strip]⟩
  | unit =>
      intro s hwf
      cases s <;> simp [wf] at hwf
      exact ⟨Py.none, rfl, by simp [from_py, is_none, strip]⟩
  | none =>
      intro s hwf
      cases s <;> simp [wf] at hwf
      exact ⟨Py.none, rfl, by simp [from_py, is_none, strip]⟩
  | some v' =>
      intro s hwf
      cases s <;> simp [wf] at hwf
      rename_i s'
      by_cases hsn : serializesToNone v' = true
      · refine ⟨Py.none, ?_, ?_⟩
        · simpa [to_py] using ser_none_of v' hsn
        · simp [from_py, is_none, strip, hsn]
      · obtain ⟨p, hp, hf⟩ := IH v' (by simp) s' hwf
        have hpn : p ≠ Py.none := by
          intro hEq
          subst hEq
          exact hsn (ser_not_none v' hp)
        have hin : is_none p = false := by
          cases hq : is_none p with
          | false => rfl
          | true => exact absurd (is_none_iff.mp hq) hpn
        refine ⟨p, by simpa [to_py] using hp, ?_⟩
        simp [from_py, hin, hf, strip, hsn]
  | seq xs =>
      intro s hwf
      cases s <;> simp [wf] at hwf
      rename_i s'
      have hIH : ∀ x ∈ xs, RT x := by
        intro x hx
        refine IH x ?_
        have := List.sizeOf_lt_of_mem hx
        simp
        omega
      obtain ⟨ps, hps, hdl⟩ := rt_list s' xs hIH hwf
      refine ⟨.list ps, by simp [to_py, hps], ?_⟩
      simp [from_py, pySeqElems, hdl, strip]
  | tuple xs =>
      intro s hwf
      cases s <;> simp [wf] at hwf
      rename_i ss
      have hIH : ∀ x ∈ xs, RT x := by
        intro x hx
        refine IH x ?_
        have := List.sizeOf_lt_of_mem hx
        simp
        omega
      obtain ⟨ps, hps, hdl⟩ := rt_tuple ss xs hIH hwf
      refine ⟨.tuple ps, by simp [to_py, hps], ?_⟩
      simp [from_py, pySeqElems, hdl, strip]
  | map kvs =>
      intro s hwf
      cases s <;> simp [wf] at hwf
      rename_i ks vs
      have hIH : ∀ x ∈ kvs, RT x.1 ∧ RT x.2 := by
        intro x hx
        have hlt := List.sizeOf_lt_of_mem hx
        obtain ⟨a, b⟩ := x
        simp at hlt
        constructor
        · refine IH a ?_
          simp
          omega
        · refine IH b ?_
          simp
          omega
      obtain ⟨entries, _, hS, hD⟩ := rt_pairs ks vs kvs hIH hwf.1 hwf.2
      refine ⟨.dict entries, ?_, ?_⟩
      · have hS0 := hS [] (by intro e he; simp at he)
        simp [to_py, hS0]
      · simp [from_py, hD, strip]
  | struct fs =>
      intro s hwf
      cases s <;> simp [wf] at hwf
      rename_i decl
      have hIH : ∀ f ∈ fs, RT f.2 := by
        intro f hf
        have hlt := List.sizeOf_lt_of_mem hf
        obtain ⟨a, b⟩ := f
        simp at hlt
        refine IH b ?_
        simp
        omega
      have hlkSelf := nodup_lookup_self hwf.2
      obtain ⟨entries, hS, hD⟩ := rt_fields decl decl fs hIH hwf.1 hlkSelf hwf.2
      refine ⟨.dict entries, ?_, ?_⟩
      · have hS0 := hS [] (by intro f hf e he; simp at he)
        simp [to_py, hS0]
      · have hDe := hD [] (by intro f hf; simp)
        have hB : buildStructFields decl (stripFields fs) = .ok (stripFields fs) := by
          have hnames : decl.map (fun f => f.1) = (stripFields fs).map (fun a => a.1) := by
            rw [stripFields_names]
            exact wfFields_names decl fs hwf.1
          have := buildStruct_go decl [] (stripFields fs) hnames
            (by intro f hf; simp) hwf.2
          simpa using this
        simp at hDe
        simp [from_py, hDe, hB, strip]
  | unitVariant n =>
      intro s hwf
      cases s <;> simp [wf] at hwf
      rename_i variants
      cases hl : lookupVariantShape variants n with
      | none => rw [hl] at hwf; simp at hwf
      | some vsh =>
          rw [hl] at hwf
          cases vsh with
          | unit =>
              refine ⟨.str n, rfl, ?_⟩
              simp [from_py, deVariantFromStr, hl, strip]
          | newtype s' => simp at hwf
          | tuple ss => simp at hwf
          | struct d => simp at hwf
  | newtypeVariant n v' =>
      intro s hwf
      cases s <;> simp [wf] at hwf
      rename_i variants
      obtain ⟨s', hl, hv⟩ := wfVariantNewtype_ex variants hwf
      obtain ⟨p, hp, hf⟩ := IH v' (by simp) s' hv
      refine ⟨.dict [(.str n, p)], ?_, ?_⟩
      · simp [to_py, hp, setItem, serialize_str, Py.hashable, dictUpsert]
      · have hvb := deVariantByName_newtype p hl
        simp [from_py, hvb, hf, strip]
  | tupleVariant n xs =>
      intro s hwf
      cases s <;> simp [wf] at hwf
      rename_i variants
      obtain ⟨ss, hl, hts⟩ := wfVariantTuple_ex variants hwf
      have hIH : ∀ x ∈ xs, RT x := by
        intro x hx
        refine IH x ?_
        have := List.sizeOf_lt_of_mem hx
        simp
        omega
      obtain ⟨ps, hps, hdl⟩ := rt_tuple ss xs hIH hts
      refine ⟨.dict [(.str n, .tuple ps)], ?_, ?_⟩
      · simp [to_py, hps, setItem, serialize_str, Py.hashable, dictUpsert]
      · have hvb := deVariantByName_tuple ps hl
        simp [from_py, hvb, hdl, strip]
  | structVariant n fs =>
      intro s hwf
      cases s <;> simp [wf] at hwf
      rename_i variants
      obtain ⟨decl, hl, hfl, hnd⟩ := wfVariantStruct_ex variants hwf
      have hIH : ∀ f ∈ fs, RT f.2 := by
        intro f hf
        have hlt := List.sizeOf_lt_of_mem hf
        obtain ⟨a, b⟩ := f
        simp at hlt
        refine IH b ?_
        simp
        omega
      have hlkSelf := nodup_lookup_self hnd
      obtain ⟨entries, hS, hD⟩ := rt_fields decl decl fs hIH hfl hlkSelf hnd
      have hS0 := hS [] (by intro f hf e he; simp at he)
      have hDe := hD [] (by intro f hf; simp)
      have hB : buildStructFields decl (stripFields fs) = .ok (stripFields fs) := by
        have hnames : decl.map (fun f => f.1) = (stripFields fs).map (fun a => a.1) := by
          rw [stripFields_names]
          exact wfFields_names decl fs hfl
        have := buildStruct_go decl [] (stripFields fs) hnames
          (by intro f hf; simp) hnd
        simpa using this
      simp at hDe hS0
      refine ⟨.dict [(.str n, .dict entries)], ?_, ?_⟩
      · simp [to_py, hS0, setItem, serialize_str, Py.hashable, dictUpsert]
      · have hvb := deVariantByName_struct entries hl
        simp [from_py, hvb, hDe, hB, strip]

/-! Claim theorems. -/

/-- C1, counterexample to the claim as stated: the typed value
`Some(unit)` — an option wrapping unit, both kinds the claim quantifies
over — serializes to the dynamic null, and deserializing null at the shape
`Option<()>` yields `None`, not `Some(unit)`; so
`from_py (to_py v) = Ok v` fails at `v = Some(unit)`. -/
theorem c1_counterexample :
    to_py (SValue.some .unit) = .ok Py.none ∧
    from_py (.option .unit) Py.none = .ok SValue.none ∧
    SValue.none ≠ SValue.some .unit := by
  refine ⟨rfl, ?_, by simp⟩
  simp [from_py, is_none]

/-- C1 (amended): for every typed value well-formed at its schema shape in
which no present option wraps a payload serializing to the dynamic null,
deserializing the dynamic value produced by serializing it yields the
original value: `from_py (to_py v) = Ok v`. -/
theorem c1_round_trip (s : Shape) (v : SValue)
    (hwf : wf s v = true) (hns : noNullSome v = true) :
    ∃ p, to_py v = .ok p ∧ from_py s p = .ok v := by
  obtain ⟨p, hp, hf⟩ := rt_all v s hwf
  exact ⟨p, hp, by rw [hf, strip_id v hns]⟩

/-- Witness for C1 at the repository's own test struct: field `int`
holding 1 and field `seq` holding the strings "a" and "b". -/
theorem c1_round_trip_witness :
    wf (.struct [("int", .u64), ("seq", .seq .str)])
      (.struct [("int", .u64 1), ("seq", .seq [.str "a", .str "b"])]) = true ∧
    noNullSome (.struct [("int", .u64 1), ("seq", .seq [.str "a", .str "b"])]) = true ∧
    ∃ p, to_py (.struct [("int", .u64 1), ("seq", .seq [.str "a", .str "b"])]) = .ok p ∧
      from_py (.struct [("int", .u64), ("seq", .seq .str)]) p =
        .ok (.struct [("int", .u64 1), ("seq", .seq [.str "a", .str "b"])]) := by
  have hwf : wf (.struct [("int", .u64), ("seq", .seq .str)])
      (.struct [("int", .u64 1), ("seq", .seq [.str "a", .str "b"])]) = true := by
    simp [wf, wfFields, wfList, namesNodup]
  have hns : noNullSome
      (.struct [("int", .u64 1), ("seq", .seq [.str "a", .str "b"])]) = true := by
    simp [noNullSome, noNullSomeFields, noNullSomeList]
  exact ⟨hwf, hns, c1_round_trip _ _ hwf hns⟩

/-- C2: in both directions the enum wire convention holds — a unit variant
is the bare string of its name (not a mapping); a newtype, tuple or struct
variant is a mapping with exactly one entry, keyed by the variant name,
whose value is respectively the payload, the ordered sequence (tuple) of
the payload fields, or the mapping of payload field names to values; and
the deserializer accepts exactly these forms, returning the original
variant for every well-formed enum value. -/
theorem c2_enum_convention :
    (∀ n : String, to_py (SValue.unitVariant n) = .ok (.str n)) ∧
    (∀ (n : String) (v : SValue) (p : Py), to_py v = .ok p →
      to_py (SValue.newtypeVariant n v) = .ok (.dict [(.str n, p)])) ∧
    (∀ (n : String) (xs : List SValue) (ps : List Py), to_pyList xs = .ok ps →
      to_py (SValue.tupleVariant n xs) = .ok (.dict [(.str n, .tuple ps)])) ∧
    (∀ (n : String) (fs : List (String × SValue)) (entries : List (Py × Py)),
      to_pyFields fs [] = .ok entries →
      to_py (SValue.structVariant n fs) = .ok (.dict [(.str n, .dict entries)])) ∧
    (∀ (variants : List (String × VariantShape)) (w : SValue),
      wf (.enum variants) w = true → noNullSome w = true →
      ∃ p, to_py w = .ok p ∧ from_py (.enum variants) p = .ok w) := by
  refine ⟨fun n => rfl, ?_, ?_, ?_, ?_⟩
  · intro n v p h
    simp [to_py, h, setItem, serialize_str, Py.hashable, dictUpsert]
  · intro n xs ps h
    simp [to_py, h, setItem, serialize_str, Py.hashable, dictUpsert]
  · intro n fs entries h
    simp [to_py, h, setItem, serialize_str, Py.hashable, dictUpsert]
  · intro variants w hwf hns
    obtain ⟨p, hp, hf⟩ := rt_all w (.enum variants) hwf
    exact ⟨p, hp, by rw [hf, strip_id w hns]⟩

/-- Witness for C2 at the repository's own test enum: the unit variant
`Unit`, `Newtype(1)`, `Tuple(1, 2)` and the struct variant `Struct`
with field `a` holding 1. -/
theorem c2_enum_convention_witness :
    to_py (SValue.unitVariant "Unit") = .ok (.str "Unit") ∧
    to_py (SValue.newtypeVariant "Newtype" (.u64 1)) =
      .ok (.dict [(.str "Newtype", .int 1)]) ∧
    to_py (SValue.tupleVariant "Tuple" [.u64 1, .u64 2]) =
      .ok (.dict [(.str "Tuple", .tuple [.int 1, .int 2])]) ∧
    to_py (SValue.structVariant "Struct" [("a", .u64 1)]) =
      .ok (.dict [(.str "Struct", .dict [(.str "a", .int 1)])]) ∧
    (∃ p, to_py (SValue.newtypeVariant "Newtype" (.u64 1)) = .ok p ∧
      from_py (.enum [("Unit", .unit), ("Newtype", .newtype .u64)]) p =
        .ok (SValue.newtypeVariant "Newtype" (.u64 1))) := by
  obtain ⟨h1, h2, h3, h4, h5⟩ := c2_enum_convention
  refine ⟨h1 "Unit", h2 "Newtype" (.u64 1) (.int 1) rfl,
    h3 "Tuple" [.u64 1, .u64 2] [.int 1, .int 2] rfl,
    h4 "Struct" [("a", .u64 1)] [(.str "a", .int 1)] ?_,
    h5 [("Unit", .unit), ("Newtype", .newtype .u64)]
      (SValue.newtypeVariant "Newtype" (.u64 1)) ?_ ?_⟩
  · simp [to_pyFields, to_py, serialize_u64, setItem, serialize_str, Py.hashable, dictUpsert]
  · simp [wf, wfVariantNewtype]
  · simp [noNullSome]

/-- C3, evidence of the code bug: the generic `downcast` helper returns
`ExpectedInteger` for every failed extraction whatever kind was requested,
so a boolean request on a string fails with the integer error (not
`ExpectedBoolean`), a float request with the integer error (not
`ExpectedFloat`), a char request on a non-string with the integer error
(not `ExpectedChar`), and a string request with the integer error (not the
string error); the kind-specific variants the claim names are declared in
`src/error.rs` but never raised. -/
theorem c3_downcast_error_evidence :
    deserialize_bool (.str "x") = .error .expectedInteger ∧
    deserialize_f64 (.str "x") = .error .expectedInteger ∧
    deserialize_char (.int 3) = .error .expectedInteger ∧
    deserialize_string (.int 3) = .error .expectedInteger ∧
    Error.expectedInteger ≠ .expectedBoolean ∧
    Error.expectedInteger ≠ .expectedFloat ∧
    Error.expectedInteger ≠ .expectedChar := by
  exact ⟨rfl, rfl, rfl, rfl, by decide, by decide, by decide⟩

/-- C4: `deserialize_any` coincides with the spec's priority-ordered probe
chain — null, then string, then boolean, then unsigned integer, then
float, then sequence-like (list or tuple), then mapping-like — accepting
the first successful probe and failing with the syntax error when none
succeeds. -/
theorem c4_any_priority : ∀ p : Py, deserialize_any p = anySpec p := by
  intro p
  cases p <;>
    simp [deserialize_any, anySpec, anyProbes, is_none, extractString, extractBool,
      extractU64, extractF64, isSeqInstance, isDictInstance]
  case int n => split_ifs with h <;> simp [List.findSome?, h]

/-- C5, counterexample to the claim as stated: a dynamic list of small
integers has no buffer capability, so the claimed fallback would produce
its octets — but `deserialize_bytes` has no fallback at all: it fails with
the wrapped host error from the buffer protocol, which is neither the
claimed success nor the claimed `ExpectedBytes` mismatch. -/
theorem c5_counterexample :
    deserialize_bytes (.list [.int 1, .int 2, .int 3]) =
      .error (.pyErr (.typeError "buffer protocol unsupported")) ∧
    deserialize_bytes (.list [.int 1, .int 2, .int 3]) ≠ .ok [1, 2, 3] ∧
    deserialize_bytes (.list [.int 1, .int 2, .int 3]) ≠ .error .expectedBytes := by
  refine ⟨rfl, by simp [deserialize_bytes], by simp [deserialize_bytes]⟩

/-- C5 (amended): the borrowed-bytes request attempts only the zero-copy
buffer view — a buffer-capable value yields its exact bytes, any other
value fails with the wrapped host error, with no fallback; the owned
fallback exists only as the separate byte-buffer entry point, which
iterates the value as a sequence of small integers and fails with the
`downcast` integer error; neither path ever produces `ExpectedBytes`. -/
theorem c5_bytes_paths (p : Py) :
    (∀ bs, p = .bytes bs → deserialize_bytes p = .ok bs) ∧
    ((∀ bs, p ≠ .bytes bs) →
      deserialize_bytes p = .error (.pyErr (.typeError "buffer protocol unsupported"))) ∧
    deserialize_bytes p ≠ .error .expectedBytes ∧
    deserialize_byte_buf p ≠ .error .expectedBytes := by
  refine ⟨?_, ?_, ?_, ?_⟩
  · intro bs h
    subst h
    rfl
  · intro h
    cases p with
    | bytes bs => exact absurd rfl (h bs)
    | _ => rfl
  · cases p <;> simp [deserialize_bytes]
  · cases hx : extractVecU8 p <;> simp [deserialize_byte_buf, hx]

/-- Witness for C5 at a bytes value and at an int. -/
theorem c5_bytes_paths_witness :
    deserialize_bytes (.bytes [1, 2]) = .ok [1, 2] ∧
    deserialize_bytes (.int 5) =
      .error (.pyErr (.typeError "buffer protocol unsupported")) := by
  refine ⟨(c5_bytes_paths (.bytes [1, 2])).1 [1, 2] rfl,
    (c5_bytes_paths (.int 5)).2.1 ?_⟩
  intro bs
  simp

/-- C6, counterexample to the claim as stated: a mapping with two entries
does not fail — `deserialize_enum` takes the dict's first key as the
variant name and its value as the payload, never examining further
entries, so the two-entry dict deserializes successfully. -/
theorem c6_counterexample :
    from_py (.enum [("Newtype", .newtype .u64), ("Other", .newtype .u64)])
      (.dict [(.str "Newtype", .int 1), (.str "Other", .int 2)]) =
      .ok (.newtypeVariant "Newtype" (.u64 1)) := by
  simp [from_py, deVariantByName, deserialize_u64, extractU64]

/-- C6 (amended): when the dynamic value is not a string,
`deserialize_enum` requires a non-empty mapping — an empty mapping fails
(with the `ExpectedMapComma` error the source names) — and uses exactly the
mapping's first entry as variant name and payload, so any entries beyond
the first never affect the result. -/
theorem c6_enum_first_entry :
    (∀ variants : List (String × VariantShape),
      from_py (.enum variants) (.dict []) = .error .expectedMapComma) ∧
    (∀ (variants : List (String × VariantShape)) (k v : Py) (rest : List (Py × Py)),
      from_py (.enum variants) (.dict ((k, v) :: rest)) =
        from_py (.enum variants) (.dict [(k, v)])) := by
  constructor
  · intro variants
    simp [from_py]
  · intro variants k v rest
    cases k <;> simp [from_py]

/-- C7: each narrow numeric entry point forwards to the 64-bit entry point
of its signedness/float-ness after a value-preserving widening, and the
64-bit entry points are the unique producers of the dynamic numeric
representations (Python int for integers, Python float for floats). -/
theorem c7_numeric_widening :
    (∀ v : Int, -(2 ^ 7) ≤ v → v < 2 ^ 7 → serialize_i8 v = serialize_i64 v) ∧
    (∀ v : Int, -(2 ^ 15) ≤ v → v < 2 ^ 15 → serialize_i16 v = serialize_i64 v) ∧
    (∀ v : Int, -(2 ^ 31) ≤ v → v < 2 ^ 31 → serialize_i32 v = serialize_i64 v) ∧
    (∀ v : Int, 0 ≤ v → v < 2 ^ 8 → serialize_u8 v = serialize_u64 v) ∧
    (∀ v : Int, 0 ≤ v → v < 2 ^ 16 → serialize_u16 v = serialize_u64 v) ∧
    (∀ v : Int, 0 ≤ v → v < 2 ^ 32 → serialize_u32 v = serialize_u64 v) ∧
    (∀ v : Rat, serialize_f32 v = serialize_f64 v) ∧
    (∀ v : Int, serialize_i64 v = .int v) ∧
    (∀ v : Int, serialize_u64 v = .int v) ∧
    (∀ v : Rat, serialize_f64 v = .float v) := by
  refine ⟨?_, ?_, ?_, ?_, ?_, ?_, ?_, ?_, ?_, ?_⟩ <;> (intros; rfl)

/-- Witness for C7 at an i8 value and a u8 value. -/
theorem c7_numeric_widening_witness :
    (-(2 ^ 7) ≤ (-5 : Int) ∧ (-5 : Int) < 2 ^ 7 ∧
      serialize_i8 (-5) = serialize_i64 (-5)) ∧
    (0 ≤ (7 : Int) ∧ (7 : Int) < 2 ^ 8 ∧ serialize_u8 7 = serialize_u64 7) := by
  refine ⟨⟨by decide, by decide,
      c7_numeric_widening.1 (-5) (by decide) (by decide)⟩,
    by decide, by decide,
      c7_numeric_widening.2.2.2.1 7 (by decide) (by decide)⟩

/-- C8: the boundary conversion maps a free-form `Message` to a generic
exception carrying its text, re-raises a wrapped host error unchanged, and
maps every other declared error — each structural mismatch and
`Unsupported` — to a `TypeError` carrying that error's taxonomy label. -/
theorem c8_error_boundary :
    (∀ msg, intoPyErr (.message msg) = .exception msg) ∧
    (∀ e, intoPyErr (.pyErr e) = e) ∧
    intoPyErr .expectedBoolean = .typeError "expected: boolean" ∧
    intoPyErr .expectedBytes = .typeError "expected: bytes" ∧
    intoPyErr .expectedChar = .typeError "expected: single character" ∧
    intoPyErr .expectedDict = .typeError "expected: dict" ∧
    intoPyErr .expectedDictValue = .typeError "expected: dict value" ∧
    intoPyErr .expectedEnumKey = .typeError "expected: non-empty dict" ∧
    intoPyErr .expectedEnumValue = .typeError "expected: non-empty dict value" ∧
    intoPyErr .expectedFloat = .typeError "expected: float" ∧
    intoPyErr .expectedInteger = .typeError "expected: integer" ∧
    intoPyErr .expectedList = .typeError "expected: list" ∧
    intoPyErr .expectedListElement = .typeError "expected: list element" ∧
    intoPyErr .expectedNone = .typeError "expected: none" ∧
    intoPyErr .expectedString = .typeError "expected: string" ∧
    intoPyErr .unsupported = .typeError "unsupported input value" :=
  ⟨fun _ => rfl, fun e => rfl, by decide⟩

/-- C9: under the enum wire convention — serialize a value at its own
schema, deserialize the result at that schema — the deserializer never
reaches the `unimplemented!()` body of `VariantAccess::unit_variant`:
unit variants serialize to bare strings and are resolved by
`deserialize_enum`'s string shortcut before an enum accessor exists, so the
panic outcome never occurs on any serializer-produced value. -/
theorem c9_unit_variant_unreachable (s : Shape) (v : SValue) (p : Py)
    (hwf : wf s v = true) (hser : to_py v = .ok p) :
    from_py s p ≠ .error .unimplemented := by
  obtain ⟨p', hp', hf⟩ := rt_all v s hwf
  rw [hser] at hp'
  have hpp : p = p' := by
    injection hp'
  rw [hpp, hf]
  simp

/-- Witness for C9 at the unit variant of the repository's test enum. -/
theorem c9_unit_variant_unreachable_witness :
    wf (.enum [("Unit", .unit)]) (SValue.unitVariant "Unit") = true ∧
    to_py (SValue.unitVariant "Unit") = .ok (.str "Unit") ∧
    from_py (.enum [("Unit", .unit)]) (.str "Unit") ≠ .error .unimplemented := by
  have h1 : wf (.enum [("Unit", .unit)]) (SValue.unitVariant "Unit") = true := by
    simp [wf, lookupVariantShape]
  exact ⟨h1, rfl, c9_unit_variant_unreachable _ _ _ h1 rfl⟩

/-- C10: a char request succeeds exactly on dynamic strings whose UTF-8
encoding is one byte long, yielding that single character; a dynamic
string of any other byte length — including a single character needing
more than one UTF-8 byte — fails with the string mismatch error. -/
theorem c10_char_single_byte :
    (∀ (p : Py) (c : Char), deserialize_char p = .ok c ↔
      ∃ s : String, p = .str s ∧ s.utf8ByteSize = 1 ∧ c = s.front) ∧
    (∀ s : String, s.utf8ByteSize ≠ 1 →
      deserialize_char (.str s) = .error .expectedString) := by
  constructor
  · intro p c
    constructor
    · intro h
      cases p with
      | str s =>
          simp [deserialize_char, extractString] at h
          by_cases hl : s.utf8ByteSize = 1
          · rw [if_pos hl] at h
            injection h with h
            exact ⟨s, rfl, hl, h.symm⟩
          · rw [if_neg hl] at h
            cases h
      | _ => simp [deserialize_char, extractString] at h
    · rintro ⟨s, rfl, hl, rfl⟩
      simp [deserialize_char, extractString, hl]
  · intro s hl
    simp [deserialize_char, extractString, hl]

/-- Witness for C10: the one-byte string "a" yields the char, the
two-byte single-character string of U+00E9 fails with the string error. -/
theorem c10_char_single_byte_witness :
    deserialize_char (.str "a") = .ok 'a' ∧
    ("é" : String).utf8ByteSize ≠ 1 ∧
    deserialize_char (.str "é") = .error .expectedString := by
  refine ⟨?_, by decide, c10_char_single_byte.2 "é" (by decide)⟩
  exact (c10_char_single_byte.1 (.str "a") 'a').mpr ⟨"a", rfl, by decide, by decide⟩

end SerdePyO3
